import Mathlib

/-!
Shallow embedding of the packet-processing core of `collector.py`
(TinyTelemetry collector): protocol codec, per-device state, duplicate
filter, reorder engine with gap detection, and the per-packet dispatch
of the main receive loop.  Machine integers are modelled as `Nat` with
explicit `% 2 ^ w` where the source masks, and Python's signed integer
subtraction in the flush trigger is modelled on `Int`.
-/

set_option maxHeartbeats 1600000
set_option maxRecDepth 8192

/-- Protocol magic byte (`MAGIC = 0x54`, collector.py line 13). -/
def MAGIC : Nat := 0x54

/-- Protocol version (`VERSION = 1`, collector.py line 14). -/
def VERSION : Nat := 1

/-- Message type `MT_INIT = 0x0`. -/
def MT_INIT : Nat := 0x0

/-- Message type `MT_INIT_ACK = 0x1`. -/
def MT_INIT_ACK : Nat := 0x1

/-- Message type `MT_DATA = 0x2`. -/
def MT_DATA : Nat := 0x2

/-- Message type `MT_HEARTBEAT = 0x3`. -/
def MT_HEARTBEAT : Nat := 0x3

/-- Message type `MT_ACK = 0x4`. -/
def MT_ACK : Nat := 0x4

/-- Header size in bytes (`struct.calcsize("!BBHII") = 12`). -/
def HEADER_SIZE : Nat := 12

/-- Reorder window in seconds (`REORDER_WINDOW_SEC = 1`, collector.py line 37). -/
def REORDER_WINDOW_SEC : Nat := 1

/-- Hard cap on the reorder buffer (`REORDER_BUFFER_MAX = 64`, collector.py line 38). -/
def REORDER_BUFFER_MAX : Nat := 64

/-- Dedup window size (`SEEN_WINDOW = 10000`, collector.py line 39). -/
def SEEN_WINDOW : Nat := 10000

/-- The function `pack_header` (collector.py lines 43-52).  `struct.pack("!BBHII", ...)`
packs big-endian bytes; `ver_type = ((VERSION & 0x0F) << 4) | (msg_type & 0x0F)` is the
sum of the disjoint nibbles, written here as `(VERSION % 16) * 16 + msg_type % 16`.
The source masks `device_id & 0xFFFF`, `seq & 0xFFFFFFFF`, `ts & 0xFFFFFFFF` before
packing; the result is the 12-byte list of the header. -/
def pack_header (msg_type device_id seq ts : Nat) : List Nat :=
  let ver_type := (VERSION % 16) * 16 + msg_type % 16
  let d := device_id % 2 ^ 16
  let s := seq % 2 ^ 32
  let t := ts % 2 ^ 32
  [MAGIC, ver_type,
   d / 2 ^ 8, d % 2 ^ 8,
   s / 2 ^ 24, s / 2 ^ 16 % 2 ^ 8, s / 2 ^ 8 % 2 ^ 8, s % 2 ^ 8,
   t / 2 ^ 24, t / 2 ^ 16 % 2 ^ 8, t / 2 ^ 8 % 2 ^ 8, t % 2 ^ 8]

/-- The header-decoding step of the main loop (collector.py lines 173-181): packets
shorter than `HEADER_SIZE` are dropped (`none`); otherwise `struct.unpack("!BBHII", ...)`
on the first 12 bytes yields `(magic, ver_type, device_id, seq, ts)` and the loop
derives `msg_type = ver_type & 0x0F` and `version = (ver_type >> 4) & 0x0F`.
The result tuple is `(magic, version, msg_type, device_id, seq, ts)`. -/
def decode_header (data : List Nat) : Option (Nat × Nat × Nat × Nat × Nat × Nat) :=
  match data with
  | b0 :: b1 :: b2 :: b3 :: b4 :: b5 :: b6 :: b7 :: b8 :: b9 :: b10 :: b11 :: _ =>
      some (b0, b1 / 16 % 16, b1 % 16,
            b2 * 2 ^ 8 + b3,
            b4 * 2 ^ 24 + b5 * 2 ^ 16 + b6 * 2 ^ 8 + b7,
            b8 * 2 ^ 24 + b9 * 2 ^ 16 + b10 * 2 ^ 8 + b11)
  | _ => none

/-- An entry of the reorder buffer (the dict appended at collector.py lines 237-242):
`device_id`, `seq`, `ts` (sender timestamp) and `arrival_time` (an opaque
collector-side stamp; a float in the source, carried but never compared). -/
structure Entry where
  device_id : Nat
  seq : Nat
  ts : Nat
  arrival_time : Nat
  deriving Repr, DecidableEq

/-- One CSV row written by `write_row` (collector.py lines 64-73). -/
structure LogRecord where
  device_id : Nat
  seq : Nat
  timestamp : Nat
  arrival_time : Nat
  duplicate_flag : Bool
  gap_flag : Bool
  deriving Repr, DecidableEq

/-- The class `DeviceState` (collector.py lines 76-86).  `last_seen_wall` is
wall-clock bookkeeping used only by the offline monitor and is not modelled. -/
structure DeviceState where
  reorder : List Entry
  last_logged_seq : Option Nat
  seen_set : Finset Nat
  seen_queue : List Nat
  capabilities : Option String
  dup_count : Nat
  gap_count : Nat
  deriving DecidableEq

/-- The state built by `DeviceState.__init__`: empty buffer, no last logged
sequence, empty dedup window, no capabilities, zero counters. -/
def initDeviceState : DeviceState :=
  { reorder := []
    last_logged_seq := none
    seen_set := ∅
    seen_queue := []
    capabilities := none
    dup_count := 0
    gap_count := 0 }

/-- The `while len(self.seen_queue) > SEEN_WINDOW` eviction loop of `seen_add`
(collector.py lines 91-94): pop the oldest queued sequence and remove it from
the membership set when present. -/
def evictLoop : Finset Nat → List Nat → Finset Nat × List Nat
  | s, [] => (s, [])
  | s, old :: rest =>
    if (old :: rest).length > SEEN_WINDOW then
      evictLoop (if old ∈ s then s.erase old else s) rest
    else (s, old :: rest)

/-- The method `DeviceState.seen_add` (collector.py lines 88-94): add `seq` to the
membership set, append it to the FIFO queue, then evict from the front while the
queue exceeds `SEEN_WINDOW`. -/
def DeviceState.seen_add (st : DeviceState) (seq : Nat) : DeviceState :=
  let p := evictLoop (insert seq st.seen_set) (st.seen_queue ++ [seq])
  { st with seen_set := p.1, seen_queue := p.2 }

/-- Sort key of a reorder entry: the pair `(ts, seq)` used by
`state.reorder.sort(key=lambda e: (e["ts"], e["seq"]))` (collector.py line 106). -/
def ekey (e : Entry) : Nat × Nat := (e.ts, e.seq)

/-- Lexicographic order on sort keys: Python tuple comparison on `(ts, seq)`. -/
def kLE (a b : Nat × Nat) : Prop := a.1 < b.1 ∨ (a.1 = b.1 ∧ a.2 ≤ b.2)

instance : DecidableRel kLE := fun a b =>
  inferInstanceAs (Decidable (a.1 < b.1 ∨ (a.1 = b.1 ∧ a.2 ≤ b.2)))

/-- Order on entries induced by their `(ts, seq)` keys. -/
def entryLE (a b : Entry) : Prop := kLE (ekey a) (ekey b)

instance : DecidableRel entryLE := fun a b =>
  inferInstanceAs (Decidable (kLE (ekey a) (ekey b)))

instance : IsTotal Entry entryLE :=
  ⟨by
    intro a b
    simp only [entryLE, kLE]
    omega⟩

instance : IsTrans Entry entryLE :=
  ⟨by
    intro a b c hab hbc
    simp only [entryLE, kLE] at *
    omega⟩

/-- Result of one release pass of `flush_reorder`: updated `last_logged_seq`,
updated `gap_count`, remaining buffer, and the records written during the pass. -/
structure FlushOut where
  last : Option Nat
  gapCount : Nat
  buf : List Entry
  recs : List LogRecord
  deriving DecidableEq

/-- The gap test performed at release time (collector.py lines 125-129):
`gap = last is not None and seq != (last + 1) & 0xFFFFFFFF`. -/
def gapSpec (last : Option Nat) (seq : Nat) : Bool :=
  match last with
  | none => false
  | some prev => decide (seq ≠ (prev + 1) % 2 ^ 32)

/-- The release condition computed for the head entry in each iteration of the
flush loop (collector.py lines 112-118): a force was requested, or
`current_ts - entry.ts >= REORDER_WINDOW_SEC` (Python int subtraction, modelled
on `Int`), or the buffer length exceeds `REORDER_BUFFER_MAX`. -/
def canFlushTrigger (e : Entry) (len : Nat) (cur : Option Int) (force : Bool) : Bool :=
  force ||
  (match cur with
   | some c => decide (c - (e.ts : Int) ≥ (REORDER_WINDOW_SEC : Int))
   | none => false) ||
  decide (len > REORDER_BUFFER_MAX)

/-- The `while idx < len(state.reorder)` loop of `flush_reorder` (collector.py
lines 108-138) on the already-sorted buffer.  `idx` is never incremented in the
source (each flushed entry is popped at `idx = 0`, and the loop breaks at the
first entry that cannot flush), so the loop inspects successive heads, checking
`canFlushTrigger` against the current buffer length.  Each flushed entry is
written with `dup = False` and the gap flag computed against the running
`last_logged_seq`. -/
def releaseLoop (last : Option Nat) (gc : Nat) (buf : List Entry)
    (cur : Option Int) (force : Bool) : FlushOut :=
  match buf with
  | [] => ⟨last, gc, [], []⟩
  | e :: rest =>
    if canFlushTrigger e (e :: rest).length cur force then
      let gap := gapSpec last e.seq
      let out := releaseLoop (some e.seq) (if gap then gc + 1 else gc) rest cur force
      ⟨out.last, out.gapCount, out.buf,
       ⟨e.device_id, e.seq, e.ts, e.arrival_time, false, gap⟩ :: out.recs⟩
    else ⟨last, gc, e :: rest, []⟩

/-- The function `flush_reorder` (collector.py lines 97-138): return unchanged on an
empty buffer; otherwise sort the buffer by `(ts, seq)` (Python's stable sort,
modelled by the stable `List.insertionSort`) and run the release loop.  Returns the
updated state and the records written during the pass. -/
def flush_reorder (st : DeviceState) (cur : Option Int) (force : Bool) :
    DeviceState × List LogRecord :=
  if st.reorder.isEmpty then (st, [])
  else
    let out := releaseLoop st.last_logged_seq st.gap_count
      (List.insertionSort entryLE st.reorder) cur force
    ({ st with reorder := out.buf, last_logged_seq := out.last, gap_count := out.gapCount },
     out.recs)

/-- A decoded packet reaching the per-device dispatch of the main loop (valid
magic and version already checked): message type, device id, sequence, sender
timestamp, collector-side arrival stamp, and the optional INIT capability payload. -/
structure PacketIn where
  msg_type : Nat
  device_id : Nat
  seq : Nat
  ts : Nat
  arrival_time : Nat
  cap : Option String
  deriving DecidableEq

/-- The per-packet dispatch of the main receive loop for one device
(collector.py lines 185-261), returning the updated device state and the CSV
records written while handling the packet:
on `MT_INIT` install a fresh `DeviceState` carrying the capability payload and
write nothing (lines 192-211); otherwise run duplicate detection first (lines
218-224): a sequence present in `seen_set` bumps `dup_count` and writes a single
`duplicate_flag` row immediately; otherwise `seen_add` the sequence (line 226)
and dispatch on the type: `MT_DATA` appends to the reorder buffer and flushes
with `current_ts = ts, force = False` (lines 229-245), `MT_HEARTBEAT` appends
and flushes with `force = True` (lines 247-257), and any other type only logs
an informational message (lines 259-261). -/
def processPacket (st : DeviceState) (p : PacketIn) : DeviceState × List LogRecord :=
  if p.msg_type = MT_INIT then
    ({ initDeviceState with capabilities := p.cap }, [])
  else if p.seq ∈ st.seen_set then
    ({ st with dup_count := st.dup_count + 1 },
     [⟨p.device_id, p.seq, p.ts, p.arrival_time, true, false⟩])
  else
    let st1 := st.seen_add p.seq
    if p.msg_type = MT_DATA then
      flush_reorder
        { st1 with reorder := st1.reorder ++ [⟨p.device_id, p.seq, p.ts, p.arrival_time⟩] }
        (some (p.ts : Int)) false
    else if p.msg_type = MT_HEARTBEAT then
      flush_reorder
        { st1 with reorder := st1.reorder ++ [⟨p.device_id, p.seq, p.ts, p.arrival_time⟩] }
        (some (p.ts : Int)) true
    else (st1, [])

/-- Run the receive loop over a list of decoded packets for one device,
accumulating the records written. -/
def runPackets (st : DeviceState) : List PacketIn → DeviceState × List LogRecord
  | [] => (st, [])
  | p :: ps =>
    let r := processPacket st p
    let r2 := runPackets r.1 ps
    (r2.1, r.2 ++ r2.2)

/-- A full collector run for one device: process the packets from a fresh state,
then perform the shutdown flush `flush_reorder(st, current_ts=10**9, force=True)`
(collector.py lines 266-269). -/
def collectorRun (ps : List PacketIn) : DeviceState × List LogRecord :=
  let r := runPackets initDeviceState ps
  let r2 := flush_reorder r.1 (some ((10 : Int) ^ 9)) true
  (r2.1, r.2 ++ r2.2)

/-- Fold a list of sequence numbers through `seen_add` from a fresh state,
modelling an arbitrary sequence of `seen_add` calls. -/
def seenFold (l : List Nat) : DeviceState :=
  l.foldl DeviceState.seen_add initDeviceState

/-- The gap flags of a list of released records form the chain computed by the
release loop: each record's flag is `gapSpec` of the previously released
sequence (seeded by the device's `last_logged_seq`). -/
def gapChain : Option Nat → List LogRecord → Prop
  | _, [] => True
  | last, r :: rs => r.gap_flag = gapSpec last r.seq ∧ gapChain (some r.seq) rs

/-- Sort key of a released record, as recorded in the CSV row. -/
def recKey (r : LogRecord) : Nat × Nat := (r.timestamp, r.seq)

/-- Sort key of an incoming packet. -/
def pKey (p : PacketIn) : Nat × Nat := (p.ts, p.seq)

/-- Delivery is timely: a later-arriving packet is never a full reorder window
older than an earlier-arriving one (the precise sense in which a stream of
packets is delivered to the reorder engine within the reorder window). -/
def lateOK (p q : PacketIn) : Prop :=
  (p.ts : Int) - (q.ts : Int) < (REORDER_WINDOW_SEC : Int)

instance : DecidableRel lateOK := fun p q =>
  inferInstanceAs (Decidable ((p.ts : Int) - (q.ts : Int) < (REORDER_WINDOW_SEC : Int)))

/-- Run invariant for the reorder-ordering proof: after processing the packets
`done` from a fresh state, reaching state `st` with accumulated records `acc`:
the dedup window holds exactly the processed sequences, records plus buffered
entries account exactly for the processed packets, the accumulated records are
sorted by `(timestamp, seq)`, every buffered entry is at least every released
key, and every released record has a processed watermark packet a full reorder
window newer than it. -/
def C2Inv (done : List PacketIn) (st : DeviceState) (acc : List LogRecord) : Prop :=
  st.seen_queue = done.map PacketIn.seq ∧
  st.seen_set = (done.map PacketIn.seq).toFinset ∧
  (acc.map recKey ++ st.reorder.map ekey).Perm (done.map pKey) ∧
  List.Pairwise kLE (acc.map recKey) ∧
  (∀ r ∈ acc, ∀ e ∈ st.reorder, kLE (recKey r) (ekey e)) ∧
  (∀ r ∈ acc, ∃ p ∈ done, (REORDER_WINDOW_SEC : Int) ≤ (p.ts : Int) - (r.timestamp : Int))

/-- Sixty-six data packets with equal sender timestamps and strictly decreasing
sequence numbers: enough to trip the `REORDER_BUFFER_MAX` backpressure trigger. -/
def ps66 : List PacketIn :=
  (List.range 66).map (fun i => ⟨MT_DATA, 1, 100 - i, 0, i, none⟩)

/-- A device state whose recency window already contains sequence 5 (the state
reached after one accepted data packet with sequence 5). -/
def stSeen5 : DeviceState :=
  (processPacket initDeviceState ⟨MT_DATA, 1, 5, 0, 0, none⟩).1

/-! ### Basic facts about the dedup window -/

theorem evictLoop_snd (q : List Nat) (s : Finset Nat) :
    (evictLoop s q).2 = q.drop (q.length - SEEN_WINDOW) := by
  induction q generalizing s with
  | nil => simp [evictLoop]
  | cons old rest ih =>
    rw [evictLoop]
    by_cases h : (old :: rest).length > SEEN_WINDOW
    · rw [if_pos h, ih]
      have h1 : (old :: rest).length - SEEN_WINDOW = (rest.length - SEEN_WINDOW) + 1 := by
        simp only [List.length_cons] at *
        omega
      rw [h1, List.drop_succ_cons]
    · rw [if_neg h]
      have h1 : (old :: rest).length - SEEN_WINDOW = 0 := by
        simp only [List.length_cons] at *
        omega
      rw [h1, List.drop_zero]

theorem evictLoop_fst (q : List Nat) (s : Finset Nat) (hnd : q.Nodup)
    (hs : s = q.toFinset) : (evictLoop s q).1 = (evictLoop s q).2.toFinset := by
  induction q generalizing s with
  | nil => simp [evictLoop, hs]
  | cons old rest ih =>
    simp only [evictLoop]
    by_cases h : (old :: rest).length > SEEN_WINDOW
    · rw [if_pos h]
      have hmem : old ∈ s := by
        rw [hs]
        simp
      rw [if_pos hmem]
      have hold : old ∉ rest := (List.nodup_cons.mp hnd).1
      have hset : s.erase old = rest.toFinset := by
        rw [hs, List.toFinset_cons, Finset.erase_insert]
        simpa using hold
      exact ih _ (List.nodup_cons.mp hnd).2 hset
    · rw [if_neg h]
      exact hs

theorem evictLoop_noop (q : List Nat) (s : Finset Nat) (h : q.length ≤ SEEN_WINDOW) :
    evictLoop s q = (s, q) := by
  cases q with
  | nil => rfl
  | cons old rest =>
    rw [evictLoop, if_neg]
    omega

theorem seen_add_reorder (st : DeviceState) (x : Nat) :
    (st.seen_add x).reorder = st.reorder := rfl

theorem seen_add_last (st : DeviceState) (x : Nat) :
    (st.seen_add x).last_logged_seq = st.last_logged_seq := rfl

theorem seen_add_dup_count (st : DeviceState) (x : Nat) :
    (st.seen_add x).dup_count = st.dup_count := rfl

theorem seen_add_queue (st : DeviceState) (x : Nat) :
    (st.seen_add x).seen_queue =
      (st.seen_queue ++ [x]).drop ((st.seen_queue ++ [x]).length - SEEN_WINDOW) := by
  simp only [DeviceState.seen_add]
  exact evictLoop_snd _ _

theorem seen_add_queue_len (st : DeviceState) (x : Nat) :
    (st.seen_add x).seen_queue.length ≤ SEEN_WINDOW := by
  rw [seen_add_queue, List.length_drop]
  omega

theorem seen_add_noop (st : DeviceState) (x : Nat)
    (h : st.seen_queue.length + 1 ≤ SEEN_WINDOW) :
    (st.seen_add x).seen_set = insert x st.seen_set ∧
    (st.seen_add x).seen_queue = st.seen_queue ++ [x] := by
  simp only [DeviceState.seen_add]
  rw [evictLoop_noop]
  · exact ⟨rfl, rfl⟩
  · simp
    omega

theorem seen_add_set (st : DeviceState) (x : Nat) (hnd : (st.seen_queue ++ [x]).Nodup)
    (hs : st.seen_set = st.seen_queue.toFinset) :
    (st.seen_add x).seen_set = (st.seen_add x).seen_queue.toFinset := by
  simp only [DeviceState.seen_add]
  refine evictLoop_fst _ _ hnd ?_
  rw [hs]
  simp [List.toFinset_append, Finset.insert_eq, Finset.union_comm]

/-! ### Basic facts about the release loop -/

theorem releaseLoop_split (buf : List Entry) (last : Option Nat) (gc : Nat)
    (cur : Option Int) (force : Bool) :
    ∃ k, k ≤ buf.length ∧
      (releaseLoop last gc buf cur force).buf = buf.drop k ∧
      (releaseLoop last gc buf cur force).recs.map recKey = (buf.take k).map ekey ∧
      (releaseLoop last gc buf cur force).recs.length = k := by
  induction buf generalizing last gc with
  | nil => exact ⟨0, by simp [releaseLoop]⟩
  | cons e rest ih =>
    by_cases hc : canFlushTrigger e (e :: rest).length cur force
    · obtain ⟨k, hk, hbuf, hrecs, hklen⟩ :=
        ih (some e.seq) (if gapSpec last e.seq then gc + 1 else gc)
      refine ⟨k + 1, ⟨?_, ?_, ?_, ?_⟩⟩
      · simp only [List.length_cons]
        omega
      · simp only [releaseLoop, if_pos hc, List.drop_succ_cons]
        exact hbuf
      · simp only [releaseLoop, if_pos hc, List.take_succ_cons, List.map_cons]
        rw [hrecs]
        rfl
      · simp only [releaseLoop, if_pos hc]
        simp only [List.length_cons]
        omega
    · refine ⟨0, ⟨by simp, ?_, ?_, ?_⟩⟩
      · simp only [releaseLoop, if_neg hc, List.drop_zero]
      · simp only [releaseLoop, if_neg hc, List.take_zero, List.map_nil]
      · simp only [releaseLoop, if_neg hc, List.length_nil]

theorem releaseLoop_gapChain (buf : List Entry) (last : Option Nat) (gc : Nat)
    (cur : Option Int) (force : Bool) :
    gapChain last (releaseLoop last gc buf cur force).recs := by
  induction buf generalizing last gc with
  | nil => simp [releaseLoop, gapChain]
  | cons e rest ih =>
    by_cases hc : canFlushTrigger e (e :: rest).length cur force
    · simp only [releaseLoop, if_pos hc]
      exact ⟨rfl, ih (some e.seq) _⟩
    · simp only [releaseLoop, if_neg hc]
      trivial

theorem releaseLoop_dup_false (buf : List Entry) (last : Option Nat) (gc : Nat)
    (cur : Option Int) (force : Bool) :
    ∀ r ∈ (releaseLoop last gc buf cur force).recs, r.duplicate_flag = false := by
  induction buf generalizing last gc with
  | nil => simp [releaseLoop]
  | cons e rest ih =>
    by_cases hc : canFlushTrigger e (e :: rest).length cur force
    · simp only [releaseLoop, if_pos hc, List.mem_cons]
      rintro r (rfl | hr)
      · rfl
      · exact ih (some e.seq) _ r hr
    · simp only [releaseLoop, if_neg hc]
      simp

theorem releaseLoop_force (buf : List Entry) (last : Option Nat) (gc : Nat)
    (cur : Option Int) :
    (releaseLoop last gc buf cur true).buf = [] ∧
    (releaseLoop last gc buf cur true).recs.map recKey = buf.map ekey := by
  induction buf generalizing last gc with
  | nil => simp [releaseLoop]
  | cons e rest ih =>
    have hc : canFlushTrigger e (e :: rest).length cur true := by
      simp [canFlushTrigger]
    simp only [releaseLoop, if_pos hc, List.map_cons]
    obtain ⟨h1, h2⟩ := ih (some e.seq) (if gapSpec last e.seq then gc + 1 else gc)
    exact ⟨h1, by rw [h2]; rfl⟩

theorem releaseLoop_len (buf : List Entry) (last : Option Nat) (gc : Nat)
    (cur : Option Int) (force : Bool) :
    (releaseLoop last gc buf cur force).buf.length ≤ REORDER_BUFFER_MAX := by
  induction buf generalizing last gc with
  | nil =>
    simp [releaseLoop, REORDER_BUFFER_MAX]
  | cons e rest ih =>
    by_cases hc : canFlushTrigger e (e :: rest).length cur force
    · simp only [releaseLoop, if_pos hc]
      exact ih (some e.seq) _
    · simp only [releaseLoop, if_neg hc]
      simp only [canFlushTrigger, Bool.or_eq_true, decide_eq_true_eq, not_or] at hc
      simpa using hc.2

theorem releaseLoop_time (buf : List Entry) (last : Option Nat) (gc : Nat)
    (cur : Option Int) (hlen : buf.length ≤ REORDER_BUFFER_MAX) :
    ∀ r ∈ (releaseLoop last gc buf cur false).recs,
      ∃ c, cur = some c ∧ (REORDER_WINDOW_SEC : Int) ≤ c - (r.timestamp : Int) := by
  induction buf generalizing last gc with
  | nil => simp [releaseLoop]
  | cons e rest ih =>
    by_cases hc : canFlushTrigger e (e :: rest).length cur false
    · have hrest : rest.length ≤ REORDER_BUFFER_MAX := by
        simp only [List.length_cons] at hlen
        omega
      have hcur : ∃ c, cur = some c ∧ (REORDER_WINDOW_SEC : Int) ≤ c - (e.ts : Int) := by
        simp only [canFlushTrigger, Bool.false_or, Bool.or_eq_true, decide_eq_true_eq] at hc
        rcases hc with hc | hc
        · cases cur with
          | none => simp at hc
          | some c =>
            refine ⟨c, rfl, ?_⟩
            simpa using hc
        · omega
      simp only [releaseLoop, if_pos hc, List.mem_cons]
      rintro r (rfl | hr)
      · exact hcur
      · exact ih (some e.seq) _ hrest r hr
    · simp only [releaseLoop, if_neg hc]
      simp

/-! ### Facts about a flush pass -/

theorem flush_reorder_fields (st : DeviceState) (cur : Option Int) (force : Bool) :
    (flush_reorder st cur force).1.seen_set = st.seen_set ∧
    (flush_reorder st cur force).1.seen_queue = st.seen_queue ∧
    (flush_reorder st cur force).1.dup_count = st.dup_count ∧
    (flush_reorder st cur force).1.capabilities = st.capabilities := by
  by_cases he : st.reorder.isEmpty = true
  · simp only [flush_reorder, if_pos he]
    simp
  · simp only [flush_reorder, if_neg he]
    simp

theorem flush_reorder_gapChain (st : DeviceState) (cur : Option Int) (force : Bool) :
    gapChain st.last_logged_seq (flush_reorder st cur force).2 := by
  by_cases he : st.reorder.isEmpty = true
  · simp only [flush_reorder, if_pos he]
    trivial
  · simp only [flush_reorder, if_neg he]
    exact releaseLoop_gapChain _ _ _ _ _

theorem flush_reorder_dup_false (st : DeviceState) (cur : Option Int) (force : Bool) :
    ∀ r ∈ (flush_reorder st cur force).2, r.duplicate_flag = false := by
  by_cases he : st.reorder.isEmpty = true
  · simp only [flush_reorder, if_pos he]
    simp
  · simp only [flush_reorder, if_neg he]
    exact releaseLoop_dup_false _ _ _ _ _

theorem flush_reorder_force (st : DeviceState) (cur : Option Int) :
    (flush_reorder st cur true).1.reorder = [] ∧
    (flush_reorder st cur true).2.map recKey =
      (List.insertionSort entryLE st.reorder).map ekey ∧
    (flush_reorder st cur true).2.length = st.reorder.length := by
  by_cases he : st.reorder.isEmpty = true
  · have he' : st.reorder = [] := List.isEmpty_iff.mp he
    simp only [flush_reorder, if_pos he, he']
    simp [he']
  · simp only [flush_reorder, if_neg he]
    obtain ⟨h1, h2⟩ := releaseLoop_force (List.insertionSort entryLE st.reorder)
      st.last_logged_seq st.gap_count cur
    refine ⟨h1, h2, ?_⟩
    have := congrArg List.length h2
    simp only [List.length_map] at this
    rw [this, (List.perm_insertionSort entryLE st.reorder).length_eq]

theorem flush_reorder_len (st : DeviceState) (cur : Option Int) (force : Bool) :
    (flush_reorder st cur force).1.reorder.length ≤ REORDER_BUFFER_MAX := by
  by_cases he : st.reorder.isEmpty = true
  · have he' : st.reorder = [] := List.isEmpty_iff.mp he
    simp only [flush_reorder, if_pos he, he']
    simp [he', REORDER_BUFFER_MAX]
  · simp only [flush_reorder, if_neg he]
    exact releaseLoop_len _ _ _ _ _

theorem flush_reorder_time (st : DeviceState) (cur : Option Int)
    (hlen : st.reorder.length ≤ REORDER_BUFFER_MAX) :
    ∀ r ∈ (flush_reorder st cur false).2,
      ∃ c, cur = some c ∧ (REORDER_WINDOW_SEC : Int) ≤ c - (r.timestamp : Int) := by
  by_cases he : st.reorder.isEmpty = true
  · simp only [flush_reorder, if_pos he]
    simp
  · simp only [flush_reorder, if_neg he]
    refine releaseLoop_time _ _ _ _ ?_
    rw [(List.perm_insertionSort entryLE st.reorder).length_eq]
    exact hlen

theorem flush_reorder_ordering (st : DeviceState) (cur : Option Int) (force : Bool) :
    List.Pairwise kLE ((flush_reorder st cur force).2.map recKey) ∧
    List.Pairwise kLE ((flush_reorder st cur force).1.reorder.map ekey) ∧
    (∀ a ∈ (flush_reorder st cur force).2.map recKey,
      ∀ b ∈ (flush_reorder st cur force).1.reorder.map ekey, kLE a b) ∧
    ((flush_reorder st cur force).2.map recKey ++
      (flush_reorder st cur force).1.reorder.map ekey).Perm (st.reorder.map ekey) := by
  by_cases he : st.reorder.isEmpty = true
  · have he' : st.reorder = [] := List.isEmpty_iff.mp he
    simp only [flush_reorder, if_pos he, he']
    simp [he']
  · simp only [flush_reorder, if_neg he]
    have hsorted : List.Pairwise kLE
        ((List.insertionSort entryLE st.reorder).map ekey) := by
      rw [List.pairwise_map]
      exact List.sorted_insertionSort entryLE st.reorder
    obtain ⟨k, hk, hbuf, hrecs, hklen⟩ := releaseLoop_split
      (List.insertionSort entryLE st.reorder) st.last_logged_seq st.gap_count cur force
    rw [hbuf, hrecs, List.map_take, List.map_drop]
    have hsplit : (List.insertionSort entryLE st.reorder).map ekey =
        ((List.insertionSort entryLE st.reorder).map ekey).take k ++
        ((List.insertionSort entryLE st.reorder).map ekey).drop k :=
      (List.take_append_drop _ _).symm
    refine ⟨?_, ?_, ?_, ?_⟩
    · exact hsorted.sublist (List.take_sublist _ _)
    · exact hsorted.sublist (List.drop_sublist _ _)
    · have := (List.pairwise_append.mp (hsplit ▸ hsorted)).2.2
      exact this
    · rw [← hsplit]
      exact (List.perm_insertionSort entryLE st.reorder).map ekey

/-! ### Dispatch shape of the per-packet path -/

theorem processPacket_init (st : DeviceState) (p : PacketIn) (h : p.msg_type = MT_INIT) :
    processPacket st p = ({ initDeviceState with capabilities := p.cap }, []) := by
  simp only [processPacket, if_pos h]

theorem processPacket_dup (st : DeviceState) (p : PacketIn)
    (h0 : p.msg_type ≠ MT_INIT) (h : p.seq ∈ st.seen_set) :
    processPacket st p =
      ({ st with dup_count := st.dup_count + 1 },
       [⟨p.device_id, p.seq, p.ts, p.arrival_time, true, false⟩]) := by
  simp only [processPacket, if_neg h0, if_pos h]

theorem processPacket_data (st : DeviceState) (p : PacketIn)
    (h : p.msg_type = MT_DATA) (h2 : p.seq ∉ st.seen_set) :
    processPacket st p =
      flush_reorder
        { st.seen_add p.seq with
          reorder := st.reorder ++ [⟨p.device_id, p.seq, p.ts, p.arrival_time⟩] }
        (some (p.ts : Int)) false := by
  have h0 : ¬ p.msg_type = MT_INIT := by
    rw [h]
    decide
  simp only [processPacket, if_neg h0, if_neg h2, if_pos h, seen_add_reorder]

theorem processPacket_hb (st : DeviceState) (p : PacketIn)
    (h : p.msg_type = MT_HEARTBEAT) (h2 : p.seq ∉ st.seen_set) :
    processPacket st p =
      flush_reorder
        { st.seen_add p.seq with
          reorder := st.reorder ++ [⟨p.device_id, p.seq, p.ts, p.arrival_time⟩] }
        (some (p.ts : Int)) true := by
  have h0 : ¬ p.msg_type = MT_INIT := by
    rw [h]
    decide
  have h1 : ¬ p.msg_type = MT_DATA := by
    rw [h]
    decide
  simp only [processPacket, if_neg h0, if_neg h2, if_neg h1, if_pos h, seen_add_reorder]

theorem processPacket_other (st : DeviceState) (p : PacketIn)
    (h0 : p.msg_type ≠ MT_INIT) (h1 : p.msg_type ≠ MT_DATA) (h3 : p.msg_type ≠ MT_HEARTBEAT)
    (h2 : p.seq ∉ st.seen_set) :
    processPacket st p = (st.seen_add p.seq, []) := by
  simp only [processPacket, if_neg h0, if_neg h2, if_neg h1, if_neg h3]

/-! ### Claim C9: header round trip -/

/-- Claim C9: for every message type in `0..15`, device id in `0..2^16-1`, and
sequence and timestamp in `0..2^32-1`, decoding the 12-byte header produced by
`pack_header` recovers exactly the same message type, device id, sequence and
timestamp, with the version field equal to the fixed protocol `VERSION`. -/
theorem claim_C9 (m d s t : Nat) (hm : m < 16) (hd : d < 2 ^ 16)
    (hs : s < 2 ^ 32) (ht : t < 2 ^ 32) :
    decode_header (pack_header m d s t) = some (MAGIC, VERSION, m, d, s, t) := by
  simp only [pack_header, decode_header, MAGIC, VERSION, Option.some.injEq, Prod.mk.injEq]
  refine ⟨trivial, ?_, ?_, ?_, ?_, ?_⟩ <;> omega

/-- Witness for claim C9 at message type 2, device 7, sequence 5, timestamp 9. -/
theorem claim_C9_witness :
    (2 : Nat) < 16 ∧ (7 : Nat) < 2 ^ 16 ∧ (5 : Nat) < 2 ^ 32 ∧ (9 : Nat) < 2 ^ 32 ∧
    decode_header (pack_header 2 7 5 9) = some (MAGIC, VERSION, 2, 7, 5, 9) :=
  ⟨by decide, by decide, by decide, by decide,
   claim_C9 2 7 5 9 (by decide) (by decide) (by decide) (by decide)⟩

/-! ### The dedup window agrees with its FIFO queue -/

theorem seen_add_nodup (st : DeviceState) (x : Nat)
    (h : (st.seen_queue ++ [x]).Nodup) : (st.seen_add x).seen_queue.Nodup := by
  rw [seen_add_queue]
  exact h.sublist (List.drop_sublist _ _)

theorem processPacket_seenInv (st : DeviceState) (p : PacketIn)
    (h1 : st.seen_set = st.seen_queue.toFinset) (h2 : st.seen_queue.Nodup) :
    (processPacket st p).1.seen_set = (processPacket st p).1.seen_queue.toFinset ∧
    (processPacket st p).1.seen_queue.Nodup := by
  by_cases hinit : p.msg_type = MT_INIT
  · rw [processPacket_init st p hinit]
    simp [initDeviceState]
  by_cases hdup : p.seq ∈ st.seen_set
  · rw [processPacket_dup st p hinit hdup]
    exact ⟨h1, h2⟩
  have hq : p.seq ∉ st.seen_queue := by
    intro hmem
    exact hdup (h1 ▸ List.mem_toFinset.mpr hmem)
  have hnd : (st.seen_queue ++ [p.seq]).Nodup := by
    simp [List.nodup_append, h2, hq]
  have hstep : (st.seen_add p.seq).seen_set = (st.seen_add p.seq).seen_queue.toFinset ∧
      (st.seen_add p.seq).seen_queue.Nodup :=
    ⟨seen_add_set st p.seq hnd h1, seen_add_nodup st p.seq hnd⟩
  by_cases hdata : p.msg_type = MT_DATA
  · rw [processPacket_data st p hdata hdup]
    obtain ⟨f1, f2, -, -⟩ := flush_reorder_fields
      { st.seen_add p.seq with
        reorder := st.reorder ++ [⟨p.device_id, p.seq, p.ts, p.arrival_time⟩] }
      (some (p.ts : Int)) false
    rw [f1, f2]
    exact hstep
  by_cases hhb : p.msg_type = MT_HEARTBEAT
  · rw [processPacket_hb st p hhb hdup]
    obtain ⟨f1, f2, -, -⟩ := flush_reorder_fields
      { st.seen_add p.seq with
        reorder := st.reorder ++ [⟨p.device_id, p.seq, p.ts, p.arrival_time⟩] }
      (some (p.ts : Int)) true
    rw [f1, f2]
    exact hstep
  · rw [processPacket_other st p hinit hdata hhb hdup]
    exact hstep

theorem runPackets_seenInv (ps : List PacketIn) (st : DeviceState)
    (h1 : st.seen_set = st.seen_queue.toFinset) (h2 : st.seen_queue.Nodup) :
    (runPackets st ps).1.seen_set = (runPackets st ps).1.seen_queue.toFinset ∧
    (runPackets st ps).1.seen_queue.Nodup := by
  induction ps generalizing st with
  | nil => exact ⟨h1, h2⟩
  | cons p ps ih =>
    obtain ⟨g1, g2⟩ := processPacket_seenInv st p h1 h2
    exact ih (processPacket st p).1 g1 g2

/-- Claim C10: along any packet run of the collector from a fresh device state
(where, as in the packet path, `seen_add` is only invoked on a sequence that is
not currently a member), the membership set `seen_set` is exactly the set of
elements of the FIFO queue `seen_queue`, which moreover stays duplicate-free. -/
theorem claim_C10 (ps : List PacketIn) :
    (runPackets initDeviceState ps).1.seen_set =
      (runPackets initDeviceState ps).1.seen_queue.toFinset ∧
    (runPackets initDeviceState ps).1.seen_queue.Nodup :=
  runPackets_seenInv ps initDeviceState (by simp [initDeviceState]) (by simp [initDeviceState])

/-! ### Closed form of repeated seen_add -/

theorem evictLoop_subset (q : List Nat) (s : Finset Nat) (h : s ⊆ q.toFinset) :
    (evictLoop s q).1 ⊆ (evictLoop s q).2.toFinset := by
  induction q generalizing s with
  | nil =>
    simpa [evictLoop] using h
  | cons old rest ih =>
    simp only [evictLoop]
    by_cases hl : (old :: rest).length > SEEN_WINDOW
    · rw [if_pos hl]
      refine ih _ ?_
      intro x hx
      by_cases hm : old ∈ s
      · rw [if_pos hm] at hx
        have hxs : x ∈ s := Finset.mem_of_mem_erase hx
        have hxo : x ≠ old := Finset.ne_of_mem_erase hx
        have := h hxs
        simp only [List.toFinset_cons, Finset.mem_insert] at this
        exact this.resolve_left hxo
      · rw [if_neg hm] at hx
        have hxo : x ≠ old := by
          intro he
          exact hm (he ▸ hx)
        have := h hx
        simp only [List.toFinset_cons, Finset.mem_insert] at this
        exact this.resolve_left hxo
    · rw [if_neg hl]
      exact h

theorem foldl_seen_add_queue (l : List Nat) (st : DeviceState)
    (h : st.seen_queue.length ≤ SEEN_WINDOW) :
    (l.foldl DeviceState.seen_add st).seen_queue =
      (st.seen_queue ++ l).drop ((st.seen_queue ++ l).length - SEEN_WINDOW) := by
  induction l generalizing st with
  | nil =>
    simp only [List.foldl_nil, List.append_nil]
    have : st.seen_queue.length - SEEN_WINDOW = 0 := by omega
    rw [this, List.drop_zero]
  | cons x l ih =>
    rw [List.foldl_cons, ih (st.seen_add x) (seen_add_queue_len st x)]
    rw [seen_add_queue]
    have hk : (st.seen_queue ++ [x]).length - SEEN_WINDOW ≤ (st.seen_queue ++ [x]).length := by
      omega
    rw [← List.drop_append_of_le_length hk, List.drop_drop]
    have harr : (st.seen_queue ++ [x]) ++ l = st.seen_queue ++ x :: l := by
      simp
    rw [harr]
    have hnum : (st.seen_queue ++ [x]).length - SEEN_WINDOW +
        ((List.drop ((st.seen_queue ++ [x]).length - SEEN_WINDOW)
          (st.seen_queue ++ x :: l)).length - SEEN_WINDOW) =
        (st.seen_queue ++ x :: l).length - SEEN_WINDOW := by
      simp only [List.length_drop, List.length_append, List.length_cons,
        List.length_singleton, List.length_nil, SEEN_WINDOW] at *
      omega
    rw [hnum]

theorem foldl_seen_add_len (l : List Nat) (st : DeviceState)
    (h : st.seen_queue.length ≤ SEEN_WINDOW) :
    (l.foldl DeviceState.seen_add st).seen_queue.length ≤ SEEN_WINDOW := by
  rw [foldl_seen_add_queue l st h, List.length_drop]
  omega

theorem foldl_seen_add_subset (l : List Nat) (st : DeviceState)
    (h : st.seen_set ⊆ st.seen_queue.toFinset) :
    (l.foldl DeviceState.seen_add st).seen_set ⊆
      (l.foldl DeviceState.seen_add st).seen_queue.toFinset := by
  induction l generalizing st with
  | nil => exact h
  | cons x l ih =>
    rw [List.foldl_cons]
    refine ih (st.seen_add x) ?_
    simp only [DeviceState.seen_add]
    refine evictLoop_subset _ _ ?_
    intro a ha
    rcases Finset.mem_insert.mp ha with rfl | ha
    · simp
    · simp only [List.toFinset_append, Finset.mem_union]
      exact Or.inl (h ha)

theorem foldl_seen_add_inv (l : List Nat) (st : DeviceState)
    (h1 : st.seen_set = st.seen_queue.toFinset)
    (h2 : (st.seen_queue ++ l).Nodup) :
    (l.foldl DeviceState.seen_add st).seen_set =
      (l.foldl DeviceState.seen_add st).seen_queue.toFinset ∧
    (l.foldl DeviceState.seen_add st).seen_queue.Nodup := by
  induction l generalizing st with
  | nil =>
    rw [List.append_nil] at h2
    exact ⟨h1, h2⟩
  | cons x l ih =>
    rw [List.foldl_cons]
    have hqeq : st.seen_queue ++ x :: l = (st.seen_queue ++ [x]) ++ l := by
      simp
    rw [hqeq] at h2
    have hqx : (st.seen_queue ++ [x]).Nodup :=
      h2.sublist (List.sublist_append_left _ _)
    refine ih (st.seen_add x) (seen_add_set st x hqx h1) ?_
    refine h2.sublist ?_
    refine List.Sublist.append_right ?_ l
    rw [seen_add_queue]
    exact List.drop_sublist _ _

/-! ### Claim C7: bounded FIFO recency window -/

/-- Claim C7: the recency window never exceeds its capacity `SEEN_WINDOW` (both
the FIFO queue length, after any `seen_add` on any state, and the membership-set
cardinality along any `seen_add` run from a fresh state), and eviction is strict
FIFO: after more than `SEEN_WINDOW` distinct sequences are accepted, the queue
holds exactly the most recent `SEEN_WINDOW` of them, every earlier-accepted
sequence has left the membership set, and resending such an evicted sequence as
a data packet is treated as new (the duplicate branch is not taken: the
duplicate counter is unchanged and no emitted record carries the duplicate
flag). -/
theorem claim_C7 :
    (∀ (st : DeviceState) (s : Nat), (st.seen_add s).seen_queue.length ≤ SEEN_WINDOW) ∧
    (∀ l : List Nat, (seenFold l).seen_set.card ≤ SEEN_WINDOW) ∧
    (∀ l : List Nat, l.Nodup → SEEN_WINDOW < l.length →
      (seenFold l).seen_queue = l.drop (l.length - SEEN_WINDOW) ∧
      (∀ a ∈ l.take (l.length - SEEN_WINDOW), a ∉ (seenFold l).seen_set) ∧
      (∀ p : PacketIn, p.msg_type = MT_DATA →
        p.seq ∈ l.take (l.length - SEEN_WINDOW) →
        (processPacket (seenFold l) p).1.dup_count = (seenFold l).dup_count ∧
        (∀ r ∈ (processPacket (seenFold l) p).2, r.duplicate_flag = false))) := by
  refine ⟨fun st s => seen_add_queue_len st s, ?_, ?_⟩
  · intro l
    have hsub := foldl_seen_add_subset l initDeviceState (by simp [initDeviceState])
    have hlen := foldl_seen_add_len l initDeviceState (by simp [initDeviceState])
    exact le_trans (Finset.card_le_card hsub)
      (le_trans (List.toFinset_card_le _) hlen)
  · intro l hnd hlen
    have hq : (seenFold l).seen_queue = l.drop (l.length - SEEN_WINDOW) := by
      have := foldl_seen_add_queue l initDeviceState (by simp [initDeviceState])
      simpa [seenFold, initDeviceState] using this
    obtain ⟨hset, hqnd⟩ := foldl_seen_add_inv l initDeviceState
      (by simp [initDeviceState]) (by simpa [initDeviceState] using hnd)
    have hdis : ∀ a ∈ l.take (l.length - SEEN_WINDOW), a ∉ (seenFold l).seen_set := by
      intro a ha hmem
      have h1 : a ∈ (seenFold l).seen_queue := by
        have : (seenFold l).seen_set = (seenFold l).seen_queue.toFinset := hset
        rw [this] at hmem
        exact List.mem_toFinset.mp hmem
      rw [hq] at h1
      have hsplit : l.take (l.length - SEEN_WINDOW) ++ l.drop (l.length - SEEN_WINDOW) = l :=
        List.take_append_drop _ _
      have hdisj := (List.nodup_append.mp (hsplit ▸ hnd)).2.2
      exact hdisj ha h1
    refine ⟨hq, hdis, ?_⟩
    intro p hp hmem
    have hni := hdis p.seq hmem
    rw [processPacket_data (seenFold l) p hp hni]
    constructor
    · obtain ⟨-, -, f3, -⟩ := flush_reorder_fields
        { (seenFold l).seen_add p.seq with
          reorder := (seenFold l).reorder ++ [⟨p.device_id, p.seq, p.ts, p.arrival_time⟩] }
        (some (p.ts : Int)) false
      rw [f3]
      exact seen_add_dup_count (seenFold l) p.seq
    · exact flush_reorder_dup_false _ _ _

/-- Witness for claim C7 at the 10001 distinct sequences `0, 1, ..., 10000`. -/
theorem claim_C7_witness :
    (List.range 10001).Nodup ∧ SEEN_WINDOW < (List.range 10001).length ∧
    ((seenFold (List.range 10001)).seen_queue =
      (List.range 10001).drop ((List.range 10001).length - SEEN_WINDOW) ∧
     (∀ a ∈ (List.range 10001).take ((List.range 10001).length - SEEN_WINDOW),
        a ∉ (seenFold (List.range 10001)).seen_set) ∧
     (∀ p : PacketIn, p.msg_type = MT_DATA →
        p.seq ∈ (List.range 10001).take ((List.range 10001).length - SEEN_WINDOW) →
        (processPacket (seenFold (List.range 10001)) p).1.dup_count =
          (seenFold (List.range 10001)).dup_count ∧
        (∀ r ∈ (processPacket (seenFold (List.range 10001)) p).2,
          r.duplicate_flag = false))) :=
  ⟨List.nodup_range 10001, by norm_num [SEEN_WINDOW],
   claim_C7.2.2 (List.range 10001) (List.nodup_range 10001) (by norm_num [SEEN_WINDOW])⟩

/-! ### Claim C1: gap flags are computed at release time against the running chain -/

/-- Claim C1: every record released by a flush pass carries a gap flag equal to
`gapSpec` of the previously released sequence (seeded with the device's
`last_logged_seq`, i.e. absent means no record released yet), so the flag is
true iff a last released sequence exists and the released sequence differs from
it plus one modulo `2 ^ 32`; in particular the first record ever released for a
device has `gap_flag = false`; and on the data path the records emitted by the
collector are exactly those of the release pass over the appended buffer, so the
gap flag is computed only at release time, never on arrival. -/
theorem claim_C1 :
    (∀ (st : DeviceState) (cur : Option Int) (force : Bool),
      gapChain st.last_logged_seq (flush_reorder st cur force).2) ∧
    (∀ (st : DeviceState) (cur : Option Int) (force : Bool) (r : LogRecord)
      (rs : List LogRecord), st.last_logged_seq = none →
      (flush_reorder st cur force).2 = r :: rs → r.gap_flag = false) ∧
    (∀ (st : DeviceState) (p : PacketIn), p.msg_type = MT_DATA → p.seq ∉ st.seen_set →
      (processPacket st p).2 =
        (flush_reorder
          { st.seen_add p.seq with
            reorder := st.reorder ++ [⟨p.device_id, p.seq, p.ts, p.arrival_time⟩] }
          (some (p.ts : Int)) false).2) := by
  refine ⟨fun st cur force => flush_reorder_gapChain st cur force, ?_, ?_⟩
  · intro st cur force r rs hnone heq
    have := flush_reorder_gapChain st cur force
    rw [heq, hnone] at this
    exact this.1
  · intro st p hp hs
    rw [processPacket_data st p hp hs]

/-- Witness for claim C1: a fresh device with one buffered entry, force-flushed. -/
theorem claim_C1_witness :
    ({ initDeviceState with reorder := [⟨1, 5, 0, 0⟩] } : DeviceState).last_logged_seq =
      none ∧
    (flush_reorder { initDeviceState with reorder := [⟨1, 5, 0, 0⟩] }
      (some 0) true).2 = ⟨1, 5, 0, 0, false, false⟩ :: [] ∧
    (⟨1, 5, 0, 0, false, false⟩ : LogRecord).gap_flag = false ∧
    (⟨MT_DATA, 1, 5, 0, 0, none⟩ : PacketIn).msg_type = MT_DATA ∧
    (⟨MT_DATA, 1, 5, 0, 0, none⟩ : PacketIn).seq ∉ initDeviceState.seen_set ∧
    (processPacket initDeviceState ⟨MT_DATA, 1, 5, 0, 0, none⟩).2 =
      (flush_reorder
        { initDeviceState.seen_add 5 with
          reorder := initDeviceState.reorder ++ [⟨1, 5, 0, 0⟩] }
        (some ((0 : Nat) : Int)) false).2 :=
  ⟨rfl, by decide,
   claim_C1.2.1 { initDeviceState with reorder := [⟨1, 5, 0, 0⟩] } (some 0) true
     ⟨1, 5, 0, 0, false, false⟩ [] rfl (by decide),
   rfl, by decide,
   claim_C1.2.2 initDeviceState ⟨MT_DATA, 1, 5, 0, 0, none⟩ rfl (by decide)⟩

/-! ### Claim C3: duplicates are logged immediately and change nothing else -/

/-- Claim C3: a data or heartbeat packet whose sequence is in the recency-window
membership set increments `dup_count`, emits exactly one record with the
duplicate flag set and the gap flag clear, and leaves everything else unchanged:
the packet is not buffered, and `last_logged_seq`, `seen_set` and `seen_queue`
are untouched (the returned state differs from the input state only in
`dup_count`). -/
theorem claim_C3 (st : DeviceState) (p : PacketIn)
    (hmt : p.msg_type = MT_DATA ∨ p.msg_type = MT_HEARTBEAT)
    (hs : p.seq ∈ st.seen_set) :
    processPacket st p =
      ({ st with dup_count := st.dup_count + 1 },
       [⟨p.device_id, p.seq, p.ts, p.arrival_time, true, false⟩]) := by
  have h0 : p.msg_type ≠ MT_INIT := by
    rcases hmt with h | h <;> rw [h] <;> decide
  exact processPacket_dup st p h0 hs

/-- Witness for claim C3: device that has accepted sequence 5 receives a data
packet with sequence 5 again. -/
theorem claim_C3_witness :
    ((⟨MT_DATA, 1, 5, 1, 1, none⟩ : PacketIn).msg_type = MT_DATA ∨
      (⟨MT_DATA, 1, 5, 1, 1, none⟩ : PacketIn).msg_type = MT_HEARTBEAT) ∧
    (⟨MT_DATA, 1, 5, 1, 1, none⟩ : PacketIn).seq ∈ stSeen5.seen_set ∧
    processPacket stSeen5 ⟨MT_DATA, 1, 5, 1, 1, none⟩ =
      ({ stSeen5 with dup_count := stSeen5.dup_count + 1 },
       [⟨1, 5, 1, 1, true, false⟩]) :=
  ⟨Or.inl rfl, by decide,
   claim_C3 stSeen5 ⟨MT_DATA, 1, 5, 1, 1, none⟩ (Or.inl rfl) (by decide)⟩

/-! ### Claim C4: a forced flush empties the buffer -/

/-- Claim C4: a forced flush (`force = true`, as on heartbeat arrival and on the
shutdown path) releases every buffered entry (one record per entry) and leaves
the reorder buffer empty, for every device state and reference timestamp; in
particular, after an accepted heartbeat the buffer is empty and one record has
been emitted for each previously buffered entry plus the heartbeat itself. -/
theorem claim_C4 :
    (∀ (st : DeviceState) (cur : Option Int),
      (flush_reorder st cur true).1.reorder = [] ∧
      (flush_reorder st cur true).2.length = st.reorder.length) ∧
    (∀ (st : DeviceState) (p : PacketIn), p.msg_type = MT_HEARTBEAT →
      p.seq ∉ st.seen_set →
      (processPacket st p).1.reorder = [] ∧
      (processPacket st p).2.length = st.reorder.length + 1) := by
  constructor
  · intro st cur
    obtain ⟨h1, -, h3⟩ := flush_reorder_force st cur
    exact ⟨h1, h3⟩
  · intro st p hp hs
    rw [processPacket_hb st p hp hs]
    obtain ⟨h1, -, h3⟩ := flush_reorder_force
      { st.seen_add p.seq with
        reorder := st.reorder ++ [⟨p.device_id, p.seq, p.ts, p.arrival_time⟩] }
      (some (p.ts : Int))
    refine ⟨h1, ?_⟩
    rw [h3]
    simp

/-- Witness for claim C4: a heartbeat arriving at a device with one buffered
entry flushes both the entry and the heartbeat. -/
theorem claim_C4_witness :
    (⟨MT_HEARTBEAT, 1, 6, 3, 1, none⟩ : PacketIn).msg_type = MT_HEARTBEAT ∧
    (⟨MT_HEARTBEAT, 1, 6, 3, 1, none⟩ : PacketIn).seq ∉ stSeen5.seen_set ∧
    (processPacket stSeen5 ⟨MT_HEARTBEAT, 1, 6, 3, 1, none⟩).1.reorder = [] ∧
    (processPacket stSeen5 ⟨MT_HEARTBEAT, 1, 6, 3, 1, none⟩).2.length =
      stSeen5.reorder.length + 1 :=
  ⟨rfl, by decide,
   (claim_C4.2 stSeen5 ⟨MT_HEARTBEAT, 1, 6, 3, 1, none⟩ rfl (by decide)).1,
   (claim_C4.2 stSeen5 ⟨MT_HEARTBEAT, 1, 6, 3, 1, none⟩ rfl (by decide)).2⟩

/-! ### Claim C5: INIT fully replaces the device state -/

/-- Claim C5: receiving an `Init` message installs a completely fresh device
state — empty reorder buffer, absent `last_logged_seq`, empty recency window,
zero counters, with only the capability payload carried over — discarding any
previously buffered entries, and emits no record for them. -/
theorem claim_C5 (st : DeviceState) (p : PacketIn) (hp : p.msg_type = MT_INIT) :
    (processPacket st p).1.reorder = [] ∧
    (processPacket st p).1.last_logged_seq = none ∧
    (processPacket st p).1.seen_set = ∅ ∧
    (processPacket st p).1.seen_queue = [] ∧
    (processPacket st p).1.dup_count = 0 ∧
    (processPacket st p).1.gap_count = 0 ∧
    (processPacket st p).1.capabilities = p.cap ∧
    (processPacket st p).2 = [] := by
  rw [processPacket_init st p hp]
  exact ⟨rfl, rfl, rfl, rfl, rfl, rfl, rfl, rfl⟩

/-- Witness for claim C5: an INIT arriving at a device with a buffered entry and
release history wipes the state and emits nothing. -/
theorem claim_C5_witness :
    (⟨MT_INIT, 1, 9, 4, 2, none⟩ : PacketIn).msg_type = MT_INIT ∧
    (processPacket
      { initDeviceState with reorder := [⟨1, 5, 0, 0⟩], last_logged_seq := some 3 }
      ⟨MT_INIT, 1, 9, 4, 2, none⟩).1.reorder = [] ∧
    (processPacket
      { initDeviceState with reorder := [⟨1, 5, 0, 0⟩], last_logged_seq := some 3 }
      ⟨MT_INIT, 1, 9, 4, 2, none⟩).2 = [] :=
  ⟨rfl,
   (claim_C5 { initDeviceState with reorder := [⟨1, 5, 0, 0⟩], last_logged_seq := some 3 }
     ⟨MT_INIT, 1, 9, 4, 2, none⟩ rfl).1,
   (claim_C5 { initDeviceState with reorder := [⟨1, 5, 0, 0⟩], last_logged_seq := some 3 }
     ⟨MT_INIT, 1, 9, 4, 2, none⟩ rfl).2.2.2.2.2.2.2⟩

/-! ### Claim C6 (amended): unknown message types still pass duplicate detection -/

/-- Counterexample to claim C6 as stated: a packet with an unknown message type
(here 9) is not simply ignored.  If its sequence is already in the recency
window the collector emits a duplicate record for it, and if it is not, the
sequence is inserted into the recency window (changing duplicate-detection
state). -/
theorem claim_C6_counterexample :
    (processPacket stSeen5 ⟨9, 1, 5, 1, 1, none⟩).2 ≠ [] ∧
    (processPacket initDeviceState ⟨9, 1, 7, 0, 0, none⟩).1.seen_set ≠
      initDeviceState.seen_set := by
  decide

/-- Claim C6 amended: a packet with valid magic and version whose type is not
`Init`, `Data` or `Heartbeat` never touches the reorder buffer or
`last_logged_seq` and triggers no release, but it does run duplicate detection
first: if its sequence is in the membership set it emits one duplicate record
and bumps `dup_count`; otherwise its sequence is added to the recency window and
no record is emitted. -/
theorem claim_C6 (st : DeviceState) (p : PacketIn)
    (h0 : p.msg_type ≠ MT_INIT) (h1 : p.msg_type ≠ MT_DATA)
    (h2 : p.msg_type ≠ MT_HEARTBEAT) :
    (processPacket st p).1.reorder = st.reorder ∧
    (processPacket st p).1.last_logged_seq = st.last_logged_seq ∧
    (if p.seq ∈ st.seen_set then
      processPacket st p =
        ({ st with dup_count := st.dup_count + 1 },
         [⟨p.device_id, p.seq, p.ts, p.arrival_time, true, false⟩])
    else processPacket st p = (st.seen_add p.seq, [])) := by
  by_cases hs : p.seq ∈ st.seen_set
  · rw [processPacket_dup st p h0 hs, if_pos hs]
    exact ⟨rfl, rfl, rfl⟩
  · rw [processPacket_other st p h0 h1 h2 hs, if_neg hs]
    exact ⟨seen_add_reorder st p.seq, seen_add_last st p.seq, rfl⟩

/-- Witness for the amended claim C6 at message type 9 on a fresh device. -/
theorem claim_C6_witness :
    (⟨9, 1, 7, 0, 0, none⟩ : PacketIn).msg_type ≠ MT_INIT ∧
    (⟨9, 1, 7, 0, 0, none⟩ : PacketIn).msg_type ≠ MT_DATA ∧
    (⟨9, 1, 7, 0, 0, none⟩ : PacketIn).msg_type ≠ MT_HEARTBEAT ∧
    ((processPacket initDeviceState ⟨9, 1, 7, 0, 0, none⟩).1.reorder =
      initDeviceState.reorder ∧
     (processPacket initDeviceState ⟨9, 1, 7, 0, 0, none⟩).1.last_logged_seq =
      initDeviceState.last_logged_seq ∧
     (if (⟨9, 1, 7, 0, 0, none⟩ : PacketIn).seq ∈ initDeviceState.seen_set then
       processPacket initDeviceState ⟨9, 1, 7, 0, 0, none⟩ =
         ({ initDeviceState with dup_count := initDeviceState.dup_count + 1 },
          [⟨1, 7, 0, 0, true, false⟩])
     else processPacket initDeviceState ⟨9, 1, 7, 0, 0, none⟩ =
       (initDeviceState.seen_add 7, []))) :=
  ⟨by decide, by decide, by decide,
   claim_C6 initDeviceState ⟨9, 1, 7, 0, 0, none⟩ (by decide) (by decide) (by decide)⟩

/-! ### Claim C8: the reorder buffer is bounded -/

/-- Claim C8: a buffer length exceeding `REORDER_BUFFER_MAX` is itself a release
trigger inside a flush pass, so every flush pass leaves the reorder buffer with
at most `REORDER_BUFFER_MAX` entries; since the per-packet path runs a flush
pass after appending every accepted data or heartbeat packet, the buffer is
bounded by the cap after each such packet. -/
theorem claim_C8 :
    (∀ (st : DeviceState) (cur : Option Int) (force : Bool),
      (flush_reorder st cur force).1.reorder.length ≤ REORDER_BUFFER_MAX) ∧
    (∀ (st : DeviceState) (p : PacketIn),
      (p.msg_type = MT_DATA ∨ p.msg_type = MT_HEARTBEAT) → p.seq ∉ st.seen_set →
      (processPacket st p).1.reorder.length ≤ REORDER_BUFFER_MAX) := by
  constructor
  · exact fun st cur force => flush_reorder_len st cur force
  · intro st p hmt hs
    rcases hmt with h | h
    · rw [processPacket_data st p h hs]
      exact flush_reorder_len _ _ _
    · rw [processPacket_hb st p h hs]
      exact flush_reorder_len _ _ _

/-- Witness for claim C8: an accepted data packet on a fresh device. -/
theorem claim_C8_witness :
    ((⟨MT_DATA, 1, 5, 0, 0, none⟩ : PacketIn).msg_type = MT_DATA ∨
      (⟨MT_DATA, 1, 5, 0, 0, none⟩ : PacketIn).msg_type = MT_HEARTBEAT) ∧
    (⟨MT_DATA, 1, 5, 0, 0, none⟩ : PacketIn).seq ∉ initDeviceState.seen_set ∧
    (processPacket initDeviceState ⟨MT_DATA, 1, 5, 0, 0, none⟩).1.reorder.length ≤
      REORDER_BUFFER_MAX :=
  ⟨Or.inl rfl, by decide,
   claim_C8.2 initDeviceState ⟨MT_DATA, 1, 5, 0, 0, none⟩ (Or.inl rfl) (by decide)⟩

/-! ### The reorder run invariant (claim C2) -/

theorem kLE_trans {a b c : Nat × Nat} (h1 : kLE a b) (h2 : kLE b c) : kLE a c := by
  simp only [kLE] at *
  omega

theorem runPackets_cons (st : DeviceState) (p : PacketIn) (ps : List PacketIn) :
    runPackets st (p :: ps) =
      ((runPackets (processPacket st p).1 ps).1,
       (processPacket st p).2 ++ (runPackets (processPacket st p).1 ps).2) := rfl

theorem C2Inv_step (done : List PacketIn) (st : DeviceState) (acc : List LogRecord)
    (q : PacketIn)
    (hq : q.msg_type = MT_DATA)
    (hfresh : q.seq ∉ done.map PacketIn.seq)
    (hlate : ∀ p ∈ done, lateOK p q)
    (hlen : done.length + 1 ≤ REORDER_BUFFER_MAX)
    (hInv : C2Inv done st acc) :
    C2Inv (done ++ [q]) (processPacket st q).1 (acc ++ (processPacket st q).2) := by
  obtain ⟨I1, I2, I3, I4, I5, I6⟩ := hInv
  have hqlen : st.seen_queue.length = done.length := by
    rw [I1, List.length_map]
  have hbuflen : acc.length + st.reorder.length = done.length := by
    have := I3.length_eq
    simpa using this
  have hqs : q.seq ∉ st.seen_set := by
    rw [I2]
    intro h
    exact hfresh (List.mem_toFinset.mp h)
  rw [processPacket_data st q hq hqs]
  set e_q : Entry := ⟨q.device_id, q.seq, q.ts, q.arrival_time⟩ with he_q
  set st2 : DeviceState := { st.seen_add q.seq with reorder := st.reorder ++ [e_q] }
    with hst2
  have hsa := seen_add_noop st q.seq
    (by
      rw [hqlen]
      simp only [SEEN_WINDOW]
      simp only [REORDER_BUFFER_MAX] at hlen
      omega)
  have hst2q : st2.seen_queue = st.seen_queue ++ [q.seq] := hsa.2
  have hst2s : st2.seen_set = insert q.seq st.seen_set := hsa.1
  have hst2r : st2.reorder = st.reorder ++ [e_q] := rfl
  have hlen2 : st2.reorder.length ≤ REORDER_BUFFER_MAX := by
    rw [hst2r, List.length_append, List.length_singleton]
    omega
  obtain ⟨O1, O2, O3, O4⟩ := flush_reorder_ordering st2 (some (q.ts : Int)) false
  have OT := flush_reorder_time st2 (some (q.ts : Int)) hlen2
  obtain ⟨F1, F2, -, -⟩ := flush_reorder_fields st2 (some (q.ts : Int)) false
  have hst2rm : st2.reorder.map ekey = st.reorder.map ekey ++ [ekey e_q] := by
    rw [hst2r, List.map_append, List.map_singleton]
  have hkeq : ekey e_q = pKey q := rfl
  have hcross : ∀ x ∈ acc, ∀ y, (y ∈ st.reorder.map ekey ∨ y = ekey e_q) →
      kLE (recKey x) y := by
    intro r hr y hy
    rcases hy with hy | rfl
    · obtain ⟨e, he, rfl⟩ := List.mem_map.mp hy
      exact I5 r hr e he
    · obtain ⟨p, hp, hw⟩ := I6 r hr
      have hl := hlate p hp
      simp only [lateOK, REORDER_WINDOW_SEC] at hl hw
      simp only [kLE, recKey, ekey, he_q]
      left
      omega
  have hmemflush : ∀ y, y ∈ (flush_reorder st2 (some (q.ts : Int)) false).2.map recKey ∨
      y ∈ (flush_reorder st2 (some (q.ts : Int)) false).1.reorder.map ekey →
      (y ∈ st.reorder.map ekey ∨ y = ekey e_q) := by
    intro y hy
    have h2 : y ∈ st2.reorder.map ekey := by
      refine O4.mem_iff.mp ?_
      rcases hy with hy | hy
      · exact List.mem_append.mpr (Or.inl hy)
      · exact List.mem_append.mpr (Or.inr hy)
    rw [hst2rm] at h2
    rcases List.mem_append.mp h2 with h2 | h2
    · exact Or.inl h2
    · exact Or.inr (List.mem_singleton.mp h2)
  refine ⟨?_, ?_, ?_, ?_, ?_, ?_⟩
  · rw [F2, hst2q, I1, List.map_append, List.map_singleton]
  · rw [F1, hst2s, I2, List.map_append, List.map_singleton, List.toFinset_append]
    simp [Finset.insert_eq, Finset.union_comm]
  · simp only [List.map_append, List.append_assoc]
    refine List.Perm.trans (List.Perm.append_left (acc.map recKey)
      (O4.trans (by rw [hst2rm]))) ?_
    rw [← List.append_assoc]
    have := I3.append_right [ekey e_q]
    refine this.trans ?_
    rw [hkeq]
    simp
  · rw [List.map_append, List.pairwise_append]
    refine ⟨I4, O1, ?_⟩
    intro x hx y hy
    obtain ⟨r, hr, rfl⟩ := List.mem_map.mp hx
    exact hcross r hr y (hmemflush y (Or.inl hy))
  · intro r hr e he
    rcases List.mem_append.mp hr with hr | hr
    · exact hcross r hr (ekey e)
        (hmemflush (ekey e) (Or.inr (List.mem_map_of_mem ekey he)))
    · exact O3 (recKey r) (List.mem_map_of_mem recKey hr)
        (ekey e) (List.mem_map_of_mem ekey he)
  · intro r hr
    rcases List.mem_append.mp hr with hr | hr
    · obtain ⟨p, hp, hw⟩ := I6 r hr
      exact ⟨p, List.mem_append.mpr (Or.inl hp), hw⟩
    · obtain ⟨c, hc, hw⟩ := OT r hr
      have hcq : c = (q.ts : Int) := (Option.some.injEq _ _ ▸ hc).symm
      refine ⟨q, List.mem_append.mpr (Or.inr (List.mem_singleton.mpr rfl)), ?_⟩
      rw [← hcq]
      exact hw

theorem runData_inv (todo : List PacketIn) :
    ∀ (done : List PacketIn) (st : DeviceState) (acc : List LogRecord),
    (∀ p ∈ done ++ todo, p.msg_type = MT_DATA) →
    ((done ++ todo).map PacketIn.seq).Nodup →
    (done ++ todo).Pairwise lateOK →
    (done ++ todo).length ≤ REORDER_BUFFER_MAX →
    C2Inv done st acc →
    C2Inv (done ++ todo) (runPackets st todo).1 (acc ++ (runPackets st todo).2) := by
  induction todo with
  | nil =>
    intro done st acc _ _ _ _ hInv
    simpa [runPackets] using hInv
  | cons q todo ih =>
    intro done st acc hmt hnd hpw hlen hInv
    have hq : q.msg_type = MT_DATA := hmt q (by simp)
    have hfresh : q.seq ∉ done.map PacketIn.seq := by
      intro hmem
      rw [List.map_append] at hnd
      have hdisj := (List.nodup_append.mp hnd).2.2
      exact hdisj hmem (by simp)
    have hlate : ∀ p ∈ done, lateOK p q := by
      intro p hp
      exact (List.pairwise_append.mp hpw).2.2 p hp q (by simp)
    have hlen1 : done.length + 1 ≤ REORDER_BUFFER_MAX := by
      simp only [List.length_append, List.length_cons] at hlen
      omega
    have hstep := C2Inv_step done st acc q hq hfresh hlate hlen1 hInv
    rw [runPackets_cons]
    have hassoc : done ++ q :: todo = (done ++ [q]) ++ todo := by
      simp
    rw [hassoc] at hmt hnd hpw hlen ⊢
    have := ih (done ++ [q]) (processPacket st q).1 (acc ++ (processPacket st q).2)
      hmt hnd hpw hlen hstep
    simpa [List.append_assoc] using this

/-! ### Claim C2 (amended): released records are sorted by (timestamp, sequence) -/

/-- Claim C2 as amended: for a finite stream of data packets for one device,
each delivered within the reorder window of every earlier-arrived packet
(`lateOK`), with pairwise-distinct sequences (so all pass the duplicate filter)
and *numbering at most the `REORDER_BUFFER_MAX` backpressure cap*, the records
released across all flush passes (including the shutdown flush) are sorted by
`(senderTimestamp, sequence)` and are exactly a permutation of the delivered
packets; moreover, each single release pass emits its records precisely in the
order of the stable sort of its buffer, which makes the per-pass ordering
stable on ties. -/
theorem claim_C2 :
    (∀ ps : List PacketIn,
      (∀ p ∈ ps, p.msg_type = MT_DATA) →
      (ps.map PacketIn.seq).Nodup →
      ps.Pairwise lateOK →
      ps.length ≤ REORDER_BUFFER_MAX →
      List.Pairwise kLE ((collectorRun ps).2.map recKey) ∧
      ((collectorRun ps).2.map recKey).Perm (ps.map pKey)) ∧
    (∀ (st : DeviceState) (cur : Option Int),
      (flush_reorder st cur true).2.map recKey =
        (List.insertionSort entryLE st.reorder).map ekey) := by
  constructor
  · intro ps hmt hnd hpw hlen
    have hInv0 : C2Inv [] initDeviceState [] := by
      refine ⟨rfl, by simp [initDeviceState], by simp [initDeviceState],
        by simp, ?_, ?_⟩ <;> simp
    have hrun := runData_inv ps [] initDeviceState []
      (by simpa using hmt) (by simpa using hnd) (by simpa using hpw)
      (by simpa using hlen) hInv0
    simp only [List.nil_append] at hrun
    obtain ⟨-, -, R3, R4, R5, -⟩ := hrun
    obtain ⟨P1, -, -, P4⟩ := flush_reorder_ordering
      (runPackets initDeviceState ps).1 (some ((10 : Int) ^ 9)) true
    obtain ⟨G1, -, -⟩ := flush_reorder_force
      (runPackets initDeviceState ps).1 (some ((10 : Int) ^ 9))
    have hcr : (collectorRun ps).2 =
        (runPackets initDeviceState ps).2 ++
        (flush_reorder (runPackets initDeviceState ps).1
          (some ((10 : Int) ^ 9)) true).2 := rfl
    rw [hcr, List.map_append]
    have hflushkeys : (List.map recKey
        (flush_reorder (runPackets initDeviceState ps).1
          (some ((10 : Int) ^ 9)) true).2).Perm
        (List.map ekey (runPackets initDeviceState ps).1.reorder) := by
      have := P4
      rw [G1] at this
      simpa using this
    constructor
    · rw [List.pairwise_append]
      refine ⟨R4, P1, ?_⟩
      intro x hx y hy
      obtain ⟨r, hr, rfl⟩ := List.mem_map.mp hx
      have hy' : y ∈ (runPackets initDeviceState ps).1.reorder.map ekey :=
        hflushkeys.mem_iff.mp hy
      obtain ⟨e, he, rfl⟩ := List.mem_map.mp hy'
      exact R5 r hr e he
    · exact (List.Perm.append_left _ hflushkeys).trans R3
  · intro st cur
    exact (flush_reorder_force st cur).2.1

/-- Counterexample to claim C2 as frozen: sixty-six data packets, all delivered
with identical sender timestamps (hence within the reorder window of every
earlier packet, under any reading) and with distinct sequences, produce a
release stream that is *not* sorted by `(senderTimestamp, sequence)` — the
buffer-cap backpressure trigger releases the current minimum while smaller keys
are still to arrive. -/
theorem claim_C2_counterexample :
    (∀ p ∈ ps66, p.msg_type = MT_DATA) ∧
    (ps66.map PacketIn.seq).Nodup ∧
    ps66.Pairwise lateOK ∧
    ¬ List.Pairwise kLE ((collectorRun ps66).2.map recKey) := by
  decide

/-- Witness for the amended claim C2 on a three-packet stream with a timestamp
tie delivered out of sequence order. -/
theorem claim_C2_witness :
    (∀ p ∈ ([⟨MT_DATA, 7, 1, 0, 0, none⟩, ⟨MT_DATA, 7, 3, 1, 1, none⟩,
        ⟨MT_DATA, 7, 2, 1, 2, none⟩] : List PacketIn), p.msg_type = MT_DATA) ∧
    (([⟨MT_DATA, 7, 1, 0, 0, none⟩, ⟨MT_DATA, 7, 3, 1, 1, none⟩,
        ⟨MT_DATA, 7, 2, 1, 2, none⟩] : List PacketIn).map PacketIn.seq).Nodup ∧
    ([⟨MT_DATA, 7, 1, 0, 0, none⟩, ⟨MT_DATA, 7, 3, 1, 1, none⟩,
        ⟨MT_DATA, 7, 2, 1, 2, none⟩] : List PacketIn).Pairwise lateOK ∧
    ([⟨MT_DATA, 7, 1, 0, 0, none⟩, ⟨MT_DATA, 7, 3, 1, 1, none⟩,
        ⟨MT_DATA, 7, 2, 1, 2, none⟩] : List PacketIn).length ≤ REORDER_BUFFER_MAX ∧
    (List.Pairwise kLE ((collectorRun [⟨MT_DATA, 7, 1, 0, 0, none⟩,
        ⟨MT_DATA, 7, 3, 1, 1, none⟩, ⟨MT_DATA, 7, 2, 1, 2, none⟩]).2.map recKey) ∧
     ((collectorRun [⟨MT_DATA, 7, 1, 0, 0, none⟩, ⟨MT_DATA, 7, 3, 1, 1, none⟩,
        ⟨MT_DATA, 7, 2, 1, 2, none⟩]).2.map recKey).Perm
       (([⟨MT_DATA, 7, 1, 0, 0, none⟩, ⟨MT_DATA, 7, 3, 1, 1, none⟩,
        ⟨MT_DATA, 7, 2, 1, 2, none⟩] : List PacketIn).map pKey)) :=
  ⟨by decide, by decide, by decide, by decide,
   claim_C2.1 [⟨MT_DATA, 7, 1, 0, 0, none⟩, ⟨MT_DATA, 7, 3, 1, 1, none⟩,
     ⟨MT_DATA, 7, 2, 1, 2, none⟩] (by decide) (by decide) (by decide) (by decide)⟩
